import Mathlib

/- Shallow embedding of the seller-apis repository: two Python batch scripts,
seller.py (Ozon) and market.py (Yandex Market), that reconcile a stock/price
feed against a marketplace catalog and push updates in size-bounded batches.

Modelling conventions:
* Python strings are Lean `String`; feed rows (dicts with keys "Код",
  "Количество", "Цена") become the structure `Watch` with transliterated
  fields `kod`, `kolichestvo`, `tsena`.
* `int(...)` conversion that may raise ValueError is `pyInt : String → Option Int`
  (`none` = exception).  Functions that may raise return `Option`/`Except`.
* In-place mutation of the `offer_ids` list by `create_stocks` is modelled by
  returning the remaining list alongside the produced updates.
* The wall-clock timestamp taken inside market.py's `create_stocks` and the
  paginated HTTP APIs consumed by `get_offer_ids` are environmental inputs and
  are passed as explicit parameters (a `date` string, an `api` function). -/

/-- Value of a run of decimal digits, most significant first. -/
def digitsVal (ds : List Char) : Nat :=
  ds.foldl (fun n c => 10 * n + (c.toNat - 48)) 0

/-- Helper for `pyInt`: a nonempty all-digit run parses, anything else raises. -/
def pyIntDigits (ds : List Char) : Option Int :=
  if ds ≠ [] ∧ ds.all Char.isDigit then some (Int.ofNat (digitsVal ds)) else none

/-- Python `int(s)` on a string: surrounding whitespace is stripped, an
optional sign precedes a nonempty run of decimal digits; any other input
raises ValueError, modelled as `none`. -/
def pyInt (s : String) : Option Int :=
  let t := ((s.data.dropWhile Char.isWhitespace).reverse.dropWhile Char.isWhitespace).reverse
  match t with
  | '-' :: ds => (pyIntDigits ds).map (fun n => -n)
  | '+' :: ds => pyIntDigits ds
  | ds => pyIntDigits ds

/-- Python `price.split(".")` on the character list: split at every period,
keeping empty fragments; the result is always nonempty, and its head is the
portion before the first period. -/
def splitDot : List Char → List (List Char)
  | [] => [[]]
  | c :: cs =>
    if c = '.' then [] :: splitDot cs
    else
      match splitDot cs with
      | [] => [[c]]
      | p :: ps => (c :: p) :: ps

/-- seller.py `price_conversion`: `re.sub("[^0-9]", "", price.split(".")[0])` —
take the part before the first period and delete every non-digit character. -/
def price_conversion (price : String) : String :=
  String.mk (((splitDot price.data).headD []).filter Char.isDigit)

/-- Iteration core of seller.py `divide`: the slices `lst[i:i+n]` for
`i in range(0, len(lst), n)`.  The fuel bounds the number of loop iterations;
`lst.length` iterations always suffice when `n ≥ 1`. -/
def divideGo (n : Nat) : Nat → List α → List (List α)
  | 0, _ => []
  | _, [] => []
  | fuel + 1, c :: cs => (c :: cs).take n :: divideGo n fuel ((c :: cs).drop n)

/-- The chunk list produced by exhausting seller.py's `divide` generator. -/
def divideChunks (lst : List α) (n : Nat) : List (List α) :=
  divideGo n lst.length lst

/-- seller.py `divide(lst, n)`: a generator of slices of size `n`.  Iterating
it with `n = 0` raises ValueError from `range` before any chunk is yielded,
modelled as an error value. -/
def divide (lst : List α) (n : Nat) : Except String (List (List α)) :=
  if n = 0 then Except.error "ValueError: range() arg 3 must not be zero"
  else Except.ok (divideChunks lst n)

/-- A feed row: dict with keys "Код" (`kod`), "Количество" (`kolichestvo`),
"Цена" (`tsena`), each taken as a string. -/
structure Watch where
  kod : String
  kolichestvo : String
  tsena : String
  deriving DecidableEq

/-- A stock update sent to the Ozon API: offer_id plus integer stock. -/
structure StockUpdate where
  offer_id : String
  stock : Int
  deriving DecidableEq

/-- A price update sent to the Ozon API (seller.py `create_prices`). -/
structure SellerPrice where
  auto_action_enabled : String
  currency_code : String
  offer_id : String
  old_price : String
  price : String
  deriving DecidableEq

/-- The quantity-to-stock normalization inlined in seller.py `create_stocks`
(lines 204-210): `">10"` gives 100, `"1"` gives 0, anything else is parsed by
`int` (which may raise, i.e. `none`). -/
def Seller.stockCount (count : String) : Option Int :=
  if count = ">10" then some 100
  else if count = "1" then some 0
  else pyInt count

/-- First loop of seller.py `create_stocks`: walk the feed, and for each row
whose code is (still) in `offer_ids` append a stock update and remove the code
from `offer_ids` (Python `list.remove` removes the first occurrence, as does
`List.erase`).  A failing `int` conversion aborts the whole call. -/
def Seller.create_stocksGo :
    List Watch → List String → List StockUpdate → Option (List StockUpdate × List String)
  | [], offer_ids, stocks => some (stocks, offer_ids)
  | watch :: rest, offer_ids, stocks =>
    if watch.kod ∈ offer_ids then
      match Seller.stockCount watch.kolichestvo with
      | none => none
      | some st =>
        Seller.create_stocksGo rest (offer_ids.erase watch.kod) (stocks ++ [⟨watch.kod, st⟩])
    else Seller.create_stocksGo rest offer_ids stocks

/-- seller.py `create_stocks`: the feed loop followed by the zero-fill loop
over the identifiers left in the (mutated) `offer_ids`.  Returns the produced
stock updates together with the final contents of the caller's list. -/
def Seller.create_stocks (watch_remnants : List Watch) (offer_ids : List String) :
    Option (List StockUpdate × List String) :=
  (Seller.create_stocksGo watch_remnants offer_ids []).map
    (fun r => (r.1 ++ r.2.map (fun id => ⟨id, 0⟩), r.2))

/-- seller.py `create_prices`: one price record per feed row whose code is in
`offer_ids`; no removal and no zero-fill happen here. -/
def Seller.create_prices (watch_remnants : List Watch) (offer_ids : List String) :
    List SellerPrice :=
  (watch_remnants.filter (fun watch => watch.kod ∈ offer_ids)).map
    (fun watch => ⟨"UNKNOWN", "RUB", watch.kod, "0", price_conversion watch.tsena⟩)

/-- One warehouse item of a Yandex Market stock update. -/
structure MarketStockItem where
  count : Int
  type : String
  updatedAt : String
  deriving DecidableEq

/-- A stock update sent to the Yandex Market API. -/
structure MarketStock where
  sku : String
  warehouseId : String
  items : List MarketStockItem
  deriving DecidableEq

/-- The quantity-to-stock normalization inlined in market.py `create_stocks`
(lines 171-177); textually identical to the seller.py version. -/
def Market.stockCount (count : String) : Option Int :=
  if count = ">10" then some 100
  else if count = "1" then some 0
  else pyInt count

/-- First loop of market.py `create_stocks`, analogous to the seller one but
producing Yandex Market records carrying the warehouse id and timestamp. -/
def Market.create_stocksGo (warehouse_id date : String) :
    List Watch → List String → List MarketStock → Option (List MarketStock × List String)
  | [], offer_ids, stocks => some (stocks, offer_ids)
  | watch :: rest, offer_ids, stocks =>
    if watch.kod ∈ offer_ids then
      match Market.stockCount watch.kolichestvo with
      | none => none
      | some st =>
        Market.create_stocksGo warehouse_id date rest (offer_ids.erase watch.kod)
          (stocks ++ [⟨watch.kod, warehouse_id, [⟨st, "FIT", date⟩]⟩])
    else Market.create_stocksGo warehouse_id date rest offer_ids stocks

/-- market.py `create_stocks`: feed loop plus zero-fill loop; `date` is the
timestamp string computed once at the start of the Python function. -/
def Market.create_stocks (watch_remnants : List Watch) (offer_ids : List String)
    (warehouse_id date : String) : Option (List MarketStock × List String) :=
  (Market.create_stocksGo warehouse_id date watch_remnants offer_ids []).map
    (fun r => (r.1 ++ r.2.map (fun id => ⟨id, warehouse_id, [⟨0, "FIT", date⟩]⟩), r.2))

/-- seller.py `upload_prices` line 315: prices are sent in chunks of 1000. -/
def Seller.upload_prices_batches (prices : List SellerPrice) : List (List SellerPrice) :=
  divideChunks prices 1000

/-- seller.py `upload_stocks` line 342: stocks are sent in chunks of 100. -/
def Seller.upload_stocks_batches (stocks : List StockUpdate) : List (List StockUpdate) :=
  divideChunks stocks 100

/-- seller.py `main` line 373: stocks are sent in chunks of 100. -/
def Seller.main_stock_batches (stocks : List StockUpdate) : List (List StockUpdate) :=
  divideChunks stocks 100

/-- seller.py `main` line 377: prices are sent in chunks of 900. -/
def Seller.main_price_batches (prices : List SellerPrice) : List (List SellerPrice) :=
  divideChunks prices 900

/-- The exception taxonomy distinguished by the two `main` functions:
`requests.exceptions.ReadTimeout`, `requests.exceptions.ConnectionError`,
`requests.exceptions.HTTPError` (a subclass of neither of the former), and
any other exception.  The latter two are both caught by the final
`except Exception` clause. -/
inductive PyExc where
  | readTimeout
  | connectionError (msg : String)
  | httpError (msg : String)
  | otherError (msg : String)
  deriving DecidableEq

/-- The try/except chain shared verbatim by seller.py `main` (lines 368-384)
and market.py `main` (lines 326-349): the body either succeeds or raises, the
three except clauses are tried in order, each prints one labelled line to
standard output, and nothing is re-raised or retried.  The result is the list
of printed lines. -/
def handleRun (body : Except PyExc Unit) : List String :=
  match body with
  | Except.ok _ => []
  | Except.error PyExc.readTimeout => ["Превышено время ожидания..."]
  | Except.error (PyExc.connectionError msg) => [msg ++ " Ошибка соединения"]
  | Except.error (PyExc.httpError msg) => [msg ++ " ERROR_2"]
  | Except.error (PyExc.otherError msg) => [msg ++ " ERROR_2"]

/-- seller.py `main`: the environment loading (lines 365-367) runs before the
try block, everything else runs inside it.  The result is the printed output,
or an uncaught exception escaping `main`. -/
def Seller.mainRun (envLoad : Except PyExc Unit) (body : Except PyExc Unit) :
    Except PyExc (List String) :=
  match envLoad with
  | Except.error e => Except.error e
  | Except.ok _ => Except.ok (handleRun body)

/-- market.py `main`: the environment loading (lines 318-323) AND the feed
download `download_stock()` (line 325) both run before the try block; only the
rest runs inside it. -/
def Market.mainRun (envLoad download body : Except PyExc Unit) :
    Except PyExc (List String) :=
  match envLoad with
  | Except.error e => Except.error e
  | Except.ok _ =>
    match download with
    | Except.error e => Except.error e
    | Except.ok _ => Except.ok (handleRun body)

/-- The `offer` object nested in a Yandex Market listing entry. -/
structure MarketOffer where
  shopSku : String
  deriving DecidableEq

/-- One entry of `offerMappingEntries` in a Yandex Market listing response. -/
structure MarketProduct where
  offer : MarketOffer
  deriving DecidableEq

/-- The `paging` object of a Yandex Market listing response; an empty string
models an absent/empty `nextPageToken` (Python falsiness). -/
structure MarketPaging where
  nextPageToken : String
  deriving DecidableEq

/-- A Yandex Market listing page as consumed by market.py `get_offer_ids`. -/
structure MarketPage where
  offerMappingEntries : List MarketProduct
  paging : MarketPaging
  deriving DecidableEq

/-- The `while True` loop of market.py `get_offer_ids` (lines 138-143): fetch
the page for the current token, extend the accumulator, take the next token,
and stop when it is empty/absent.  The mocked API is the function `api`; the
fuel bounds the number of iterations, `none` meaning the loop was still
running when the fuel ran out. -/
def Market.get_offer_idsGo (api : String → MarketPage) :
    Nat → String → List MarketProduct → Option (List MarketProduct)
  | 0, _, _ => none
  | fuel + 1, page, product_list =>
    let some_prod := api page
    let product_list2 := product_list ++ some_prod.offerMappingEntries
    let page2 := some_prod.paging.nextPageToken
    if page2 = "" then some product_list2
    else Market.get_offer_idsGo api fuel page2 product_list2

/-- market.py `get_offer_ids`: run the pagination loop from the empty token
and the empty accumulator, then project every product to `offer.shopSku`. -/
def Market.get_offer_ids (api : String → MarketPage) (fuel : Nat) : Option (List String) :=
  (Market.get_offer_idsGo api fuel "" []).map (fun ps => ps.map (fun p => p.offer.shopSku))

/-- The sequence of page tokens the loop requests: the first request uses
`""`, each later one uses the token returned by the previous response. -/
def Market.tokenSeq (api : String → MarketPage) : Nat → String
  | 0 => ""
  | i + 1 => (api (Market.tokenSeq api i)).paging.nextPageToken

/-- Concatenated entries of the first `k` pages along the token sequence. -/
def Market.pagesEntries (api : String → MarketPage) (k : Nat) : List MarketProduct :=
  ((List.range k).map (fun i => (api (Market.tokenSeq api i)).offerMappingEntries)).flatten

/-- One item of an Ozon listing response. -/
structure SellerItem where
  offer_id : String
  deriving DecidableEq

/-- An Ozon listing page as consumed by seller.py `get_offer_ids`: items, the
reported total count, and the last-seen id used as the next cursor. -/
structure SellerPage where
  items : List SellerItem
  total : Nat
  last_id : String
  deriving DecidableEq

/-- The `while True` loop of seller.py `get_offer_ids` (lines 71-77): fetch the
page for the current `last_id`, extend the accumulator, update `last_id`, and
stop when the reported total equals the accumulated item count. -/
def Seller.get_offer_idsGo (api : String → SellerPage) :
    Nat → String → List SellerItem → Option (List SellerItem)
  | 0, _, _ => none
  | fuel + 1, last_id, product_list =>
    let some_prod := api last_id
    let product_list2 := product_list ++ some_prod.items
    let last_id2 := some_prod.last_id
    if some_prod.total = product_list2.length then some product_list2
    else Seller.get_offer_idsGo api fuel last_id2 product_list2

/-- seller.py `get_offer_ids`: run the pagination loop from the empty cursor
and the empty accumulator, then project every product to `offer_id`. -/
def Seller.get_offer_ids (api : String → SellerPage) (fuel : Nat) : Option (List String) :=
  (Seller.get_offer_idsGo api fuel "" []).map (fun ps => ps.map (fun p => p.offer_id))

/-- The sequence of cursors the loop requests: `""` first, then the `last_id`
of the previous response. -/
def Seller.idSeq (api : String → SellerPage) : Nat → String
  | 0 => ""
  | i + 1 => (api (Seller.idSeq api i)).last_id

/-- Concatenated items of the first `k` pages along the cursor sequence. -/
def Seller.pagesItems (api : String → SellerPage) (k : Nat) : List SellerItem :=
  ((List.range k).map (fun i => (api (Seller.idSeq api i)).items)).flatten

theorem divideGo_nil {α : Type} (n fuel : Nat) : divideGo (α := α) n fuel [] = [] := by
  cases fuel <;> rfl

theorem divideGo_flatten {α : Type} (n : Nat) (hn : 1 ≤ n) :
    ∀ (fuel : Nat) (lst : List α), lst.length ≤ fuel → (divideGo n fuel lst).flatten = lst := by
  intro fuel
  induction fuel with
  | zero =>
    intro lst hl
    have hnil : lst = [] := List.eq_nil_of_length_eq_zero (Nat.le_zero.mp hl)
    subst hnil; rfl
  | succ f ih =>
    intro lst hl
    cases lst with
    | nil => rfl
    | cons c cs =>
      have hdrop : ((c :: cs).drop n).length ≤ f := by
        simp only [List.length_drop, List.length_cons] at hl ⊢
        omega
      simp only [divideGo, List.flatten_cons, ih _ hdrop, List.take_append_drop]

theorem divideGo_length_le {α : Type} (n : Nat) :
    ∀ (fuel : Nat) (lst : List α), ∀ c ∈ divideGo n fuel lst, c.length ≤ n := by
  intro fuel
  induction fuel with
  | zero => intro lst c hc; simp [divideGo] at hc
  | succ f ih =>
    intro lst c hc
    cases lst with
    | nil => simp [divideGo] at hc
    | cons a as =>
      simp only [divideGo, List.mem_cons] at hc
      rcases hc with h | h
      · subst h
        rw [List.length_take]
        exact min_le_left _ _
      · exact ih _ c h

theorem divideGo_dropLast {α : Type} (n : Nat) :
    ∀ (fuel : Nat) (lst : List α), ∀ c ∈ (divideGo n fuel lst).dropLast, c.length = n := by
  intro fuel
  induction fuel with
  | zero => intro lst c hc; simp [divideGo] at hc
  | succ f ih =>
    intro lst c hc
    cases lst with
    | nil => simp [divideGo] at hc
    | cons a as =>
      rw [show divideGo n (f + 1) (a :: as)
          = (a :: as).take n :: divideGo n f ((a :: as).drop n) from rfl] at hc
      rcases hrest : divideGo n f ((a :: as).drop n) with _ | ⟨r, rs⟩
      · rw [hrest] at hc; simp at hc
      · rw [hrest, List.dropLast_cons₂, List.mem_cons] at hc
        rcases hc with h | h
        · subst h
          have hlen : n ≤ (a :: as).length := by
            by_contra hgt
            push_neg at hgt
            have hdnil : (a :: as).drop n = [] := by
              apply List.drop_eq_nil_of_le
              omega
            rw [hdnil, divideGo_nil] at hrest
            exact List.noConfusion hrest
          rw [List.length_take]
          omega
        · rw [← hrest] at h
          exact ih _ c h

theorem divideGo_count {α : Type} (n : Nat) (hn : 1 ≤ n) :
    ∀ (fuel : Nat) (lst : List α), lst.length ≤ fuel →
      (divideGo n fuel lst).length = (lst.length + n - 1) / n := by
  intro fuel
  induction fuel with
  | zero =>
    intro lst hl
    have hnil : lst = [] := List.eq_nil_of_length_eq_zero (Nat.le_zero.mp hl)
    subst hnil
    simp only [divideGo, List.length_nil]
    exact (Nat.div_eq_of_lt (by omega)).symm
  | succ f ih =>
    intro lst hl
    cases lst with
    | nil =>
      simp only [divideGo, List.length_nil]
      exact (Nat.div_eq_of_lt (by omega)).symm
    | cons a as =>
      have hdl : ((a :: as).drop n).length ≤ f := by
        simp only [List.length_drop, List.length_cons] at hl ⊢
        omega
      simp only [divideGo, List.length_cons, ih _ hdl, List.length_drop]
      rcases le_or_lt (as.length + 1) n with hle | hlt
      · have h0 : as.length + 1 - n = 0 := by omega
        have r1 : (0 + n - 1) / n = 0 := Nat.div_eq_of_lt (by omega)
        have r2 : (as.length + 1 + n - 1) / n = 1 := by
          rw [Nat.div_eq_of_lt_le] <;> omega
        rw [h0, r1, r2]
      · have e1 : as.length + 1 + n - 1 = (as.length + 1 - n + n - 1) + n := by omega
        rw [e1, Nat.add_div_right _ (by omega : 0 < n)]

/-- C4: for every list and chunk size n ≥ 1, the chunks yielded by divide are
contiguous slices in original order whose concatenation is the input, every
chunk has size at most n, every chunk but possibly the last has size exactly
n; and divide [1,2,3,4,5] 2 yields [[1,2],[3,4],[5]]. -/
theorem c4_divide_chunks :
    (∀ (α : Type) (lst : List α) (n : Nat) (chunks : List (List α)), 1 ≤ n →
      divide lst n = Except.ok chunks →
      chunks.flatten = lst ∧ (∀ c ∈ chunks, c.length ≤ n) ∧
        ∀ c ∈ chunks.dropLast, c.length = n) ∧
    divide [1, 2, 3, 4, 5] 2 = Except.ok [[1, 2], [3, 4], [5]] := by
  refine ⟨?_, rfl⟩
  intro α lst n chunks hn hd
  rw [divide, if_neg (by omega : ¬ n = 0)] at hd
  have hc : chunks = divideGo n lst.length lst := by
    have := Except.ok.injEq (ε := String) chunks (divideChunks lst n)
    cases hd; rfl
  subst hc
  exact ⟨divideGo_flatten n hn lst.length lst le_rfl,
    divideGo_length_le n lst.length lst,
    divideGo_dropLast n lst.length lst⟩

theorem c4_divide_chunks_witness :
    (1 : Nat) ≤ 2 ∧
      ([[1, 2], [3, 4], [5]] : List (List Nat)).flatten = [1, 2, 3, 4, 5] ∧
      (∀ c ∈ ([[1, 2], [3, 4], [5]] : List (List Nat)), c.length ≤ 2) ∧
      (∀ c ∈ ([[1, 2], [3, 4], [5]] : List (List Nat)).dropLast, c.length = 2) :=
  ⟨by omega, c4_divide_chunks.1 Nat [1, 2, 3, 4, 5] 2 [[1, 2], [3, 4], [5]] (by omega) rfl⟩

/-- C10: iterating divide with n = 0 raises ValueError before yielding any
chunk, and for n ≥ 1 it is total and yields exactly ceil(len/n) chunks. -/
theorem c10_divide_zero_and_count :
    (∀ (α : Type) (lst : List α),
      divide lst 0 = Except.error "ValueError: range() arg 3 must not be zero") ∧
    (∀ (α : Type) (lst : List α) (n : Nat), 1 ≤ n →
      ∃ chunks, divide lst n = Except.ok chunks ∧
        chunks.length = (lst.length + n - 1) / n) := by
  constructor
  · intro α lst; rfl
  · intro α lst n hn
    refine ⟨divideChunks lst n, ?_, ?_⟩
    · rw [divide, if_neg (by omega : ¬ n = 0)]
    · exact divideGo_count n hn lst.length lst le_rfl

theorem c10_divide_zero_and_count_witness :
    ∃ chunks : List (List Nat), divide [1, 2, 3, 4, 5] 2 = Except.ok chunks ∧
      chunks.length = ([1, 2, 3, 4, 5].length + 2 - 1) / 2 :=
  c10_divide_zero_and_count.2 Nat [1, 2, 3, 4, 5] 2 (by omega)

/-- C6: every batch that seller.py sends to the Ozon update endpoints respects
the size bound of its call site: 100 for stocks on both the direct-upload and
orchestrator paths, 1000 for prices in upload_prices, 900 for prices in main. -/
theorem c6_seller_batch_sizes :
    (∀ stocks : List StockUpdate, ∀ b ∈ Seller.upload_stocks_batches stocks, b.length ≤ 100) ∧
    (∀ stocks : List StockUpdate, ∀ b ∈ Seller.main_stock_batches stocks, b.length ≤ 100) ∧
    (∀ prices : List SellerPrice, ∀ b ∈ Seller.upload_prices_batches prices, b.length ≤ 1000) ∧
    (∀ prices : List SellerPrice, ∀ b ∈ Seller.main_price_batches prices, b.length ≤ 900) :=
  ⟨fun stocks => divideGo_length_le 100 stocks.length stocks,
   fun stocks => divideGo_length_le 100 stocks.length stocks,
   fun prices => divideGo_length_le 1000 prices.length prices,
   fun prices => divideGo_length_le 900 prices.length prices⟩

theorem c6_seller_batch_sizes_witness :
    ([⟨"a", 1⟩] : List StockUpdate).length ≤ 100 ∧
    ([⟨"a", 1⟩] : List StockUpdate).length ≤ 100 ∧
    ([⟨"UNKNOWN", "RUB", "a", "0", "1"⟩] : List SellerPrice).length ≤ 1000 ∧
    ([⟨"UNKNOWN", "RUB", "a", "0", "1"⟩] : List SellerPrice).length ≤ 900 :=
  ⟨c6_seller_batch_sizes.1 [⟨"a", 1⟩] [⟨"a", 1⟩] (by decide),
   c6_seller_batch_sizes.2.1 [⟨"a", 1⟩] [⟨"a", 1⟩] (by decide),
   c6_seller_batch_sizes.2.2.1 [⟨"UNKNOWN", "RUB", "a", "0", "1"⟩]
     [⟨"UNKNOWN", "RUB", "a", "0", "1"⟩] (by decide),
   c6_seller_batch_sizes.2.2.2 [⟨"UNKNOWN", "RUB", "a", "0", "1"⟩]
     [⟨"UNKNOWN", "RUB", "a", "0", "1"⟩] (by decide)⟩

theorem Seller.create_stocksGo_perm :
    ∀ (feed : List Watch) (ids : List String) (acc out : List StockUpdate) (rem : List String),
      Seller.create_stocksGo feed ids acc = some (out, rem) →
      (out.map StockUpdate.offer_id ++ rem).Perm (acc.map StockUpdate.offer_id ++ ids) := by
  intro feed
  induction feed with
  | nil =>
    intro ids acc out rem h
    simp only [Seller.create_stocksGo, Option.some.injEq, Prod.mk.injEq] at h
    rw [← h.1, ← h.2]
  | cons w ws ih =>
    intro ids acc out rem h
    simp only [Seller.create_stocksGo] at h
    by_cases hin : w.kod ∈ ids
    · rw [if_pos hin] at h
      rcases hsc : Seller.stockCount w.kolichestvo with _ | st <;> simp only [hsc] at h
      · exact absurd h (by simp)
      · refine (ih _ _ _ _ h).trans ?_
        rw [List.map_append, List.append_assoc]
        refine List.Perm.append_left _ ?_
        simpa using (List.perm_cons_erase hin).symm
    · rw [if_neg hin] at h
      exact ih _ _ _ _ h

theorem Seller.create_stocksGo_rem_mem :
    ∀ (feed : List Watch) (ids : List String) (acc out : List StockUpdate) (rem : List String),
      Seller.create_stocksGo feed ids acc = some (out, rem) →
      ∀ id ∈ ids, id ∉ feed.map Watch.kod → id ∈ rem := by
  intro feed
  induction feed with
  | nil =>
    intro ids acc out rem h id hid _
    simp only [Seller.create_stocksGo, Option.some.injEq, Prod.mk.injEq] at h
    rw [← h.2]
    exact hid
  | cons w ws ih =>
    intro ids acc out rem h id hid hnot
    simp only [List.map_cons, List.mem_cons, not_or] at hnot
    obtain ⟨hne, hnot2⟩ := hnot
    simp only [Seller.create_stocksGo] at h
    by_cases hin : w.kod ∈ ids
    · rw [if_pos hin] at h
      rcases hsc : Seller.stockCount w.kolichestvo with _ | st <;> simp only [hsc] at h
      · exact absurd h (by simp)
      · exact ih _ _ _ _ h id ((List.mem_erase_of_ne hne).mpr hid) (by simpa using hnot2)
    · rw [if_neg hin] at h
      exact ih _ _ _ _ h id hid (by simpa using hnot2)

theorem Seller.create_stocksGo_rem_eq :
    ∀ (feed : List Watch) (ids : List String) (acc out : List StockUpdate) (rem : List String),
      ids.Nodup → Seller.create_stocksGo feed ids acc = some (out, rem) →
      rem = ids.filter (fun id => decide (id ∉ feed.map Watch.kod)) := by
  intro feed
  induction feed with
  | nil =>
    intro ids acc out rem _ h
    simp only [Seller.create_stocksGo, Option.some.injEq, Prod.mk.injEq] at h
    rw [← h.2]
    exact (List.filter_eq_self.mpr (by intro a _; simp)).symm
  | cons w ws ih =>
    intro ids acc out rem hnd h
    simp only [Seller.create_stocksGo] at h
    by_cases hin : w.kod ∈ ids
    · rw [if_pos hin] at h
      rcases hsc : Seller.stockCount w.kolichestvo with _ | st <;> simp only [hsc] at h
      · exact absurd h (by simp)
      · have hrec := ih (ids.erase w.kod) _ _ _ (hnd.erase _) h
        rw [hrec, List.Nodup.erase_eq_filter hnd, List.filter_filter]
        apply List.filter_congr
        intro x _
        simp only [List.map_cons, List.mem_cons, not_or, decide_not, Bool.decide_and]
        cases hxw : decide (x = w.kod) <;> cases hxs : decide (x ∈ ws.map Watch.kod) <;> simp_all
    · rw [if_neg hin] at h
      rw [ih ids _ _ _ hnd h]
      apply List.filter_congr
      intro x hx
      have hne : ¬ x = w.kod := fun he => hin (he ▸ hx)
      simp [List.mem_cons, hne]

theorem Seller.create_stocks_elim (feed : List Watch) (ids : List String)
    (stocks : List StockUpdate) (rem : List String)
    (h : Seller.create_stocks feed ids = some (stocks, rem)) :
    ∃ out, Seller.create_stocksGo feed ids [] = some (out, rem) ∧
      stocks = out ++ rem.map (fun id => ⟨id, 0⟩) := by
  rw [Seller.create_stocks] at h
  rcases hgo : Seller.create_stocksGo feed ids [] with _ | ⟨out, rem2⟩ <;> rw [hgo] at h
  · exact Option.noConfusion h
  · simp only [Option.map_some', Option.some.injEq, Prod.mk.injEq] at h
    obtain ⟨h1, h2⟩ := h
    subst h2
    exact ⟨out, rfl, h1.symm⟩

theorem Seller.create_stocks_perm (feed : List Watch) (ids : List String)
    (stocks : List StockUpdate) (rem : List String)
    (h : Seller.create_stocks feed ids = some (stocks, rem)) :
    (stocks.map StockUpdate.offer_id).Perm ids := by
  obtain ⟨out, hgo, hstocks⟩ := Seller.create_stocks_elim feed ids stocks rem h
  have hperm := Seller.create_stocksGo_perm feed ids [] out rem hgo
  simp only [List.map_nil, List.nil_append] at hperm
  rw [hstocks, List.map_append, List.map_map]
  have hmm : (StockUpdate.offer_id ∘ fun id => (⟨id, 0⟩ : StockUpdate)) = id := by
    funext x; rfl
  rw [hmm, List.map_id]
  exact hperm

/-- C1 (amended): a run of the stock reconciler create_stocks on a feed list
and a duplicate-free catalog identifier list gives every catalog identifier
exactly one stock update, updates only catalog identifiers, and explicitly
zeroes every identifier not matched by any feed record; the spec example
evaluates as stated.  (The exactly-one-update guarantee does not extend to
create_prices, and fails on catalogs with duplicates: see the
counterexample.) -/
theorem c1_create_stocks_exactly_once :
    (∀ (feed : List Watch) (ids : List String) (stocks : List StockUpdate) (rem : List String),
      ids.Nodup → Seller.create_stocks feed ids = some (stocks, rem) →
      (∀ id ∈ ids, (stocks.map StockUpdate.offer_id).count id = 1) ∧
      (∀ u ∈ stocks, u.offer_id ∈ ids) ∧
      (∀ id ∈ ids, id ∉ feed.map Watch.kod → (⟨id, 0⟩ : StockUpdate) ∈ stocks)) ∧
    Seller.create_stocks [⟨"123", "5", ""⟩] ["123", "456"] =
      some ([⟨"123", 5⟩, ⟨"456", 0⟩], ["456"]) := by
  refine ⟨?_, rfl⟩
  intro feed ids stocks rem hnd h
  have hperm := Seller.create_stocks_perm feed ids stocks rem h
  refine ⟨?_, ?_, ?_⟩
  · intro id hid
    rw [hperm.count_eq]
    exact List.count_eq_one_of_mem hnd hid
  · intro u hu
    exact hperm.mem_iff.mp (List.mem_map_of_mem StockUpdate.offer_id hu)
  · intro id hid hnot
    obtain ⟨out, hgo, hstocks⟩ := Seller.create_stocks_elim feed ids stocks rem h
    have hrem : id ∈ rem := Seller.create_stocksGo_rem_mem feed ids [] out rem hgo id hid hnot
    rw [hstocks]
    exact List.mem_append_right _
      (List.mem_map_of_mem (fun id => (⟨id, 0⟩ : StockUpdate)) hrem)

theorem c1_create_stocks_exactly_once_witness :
    (["123", "456"] : List String).Nodup ∧
      ((∀ id ∈ (["123", "456"] : List String),
        (([⟨"123", 5⟩, ⟨"456", 0⟩] : List StockUpdate).map StockUpdate.offer_id).count id = 1) ∧
      (∀ u ∈ ([⟨"123", 5⟩, ⟨"456", 0⟩] : List StockUpdate), u.offer_id ∈ ["123", "456"]) ∧
      (∀ id ∈ (["123", "456"] : List String), id ∉ [Watch.mk "123" "5" ""].map Watch.kod →
        (⟨id, 0⟩ : StockUpdate) ∈ [⟨"123", 5⟩, ⟨"456", 0⟩])) :=
  ⟨by decide, c1_create_stocks_exactly_once.1 [⟨"123", "5", ""⟩] ["123", "456"]
    [⟨"123", 5⟩, ⟨"456", 0⟩] ["456"] (by decide) rfl⟩

/-- C1 counterexample: the claim quantifies over create_prices as well, and
over arbitrary catalog lists.  (a) create_prices emits no update for a catalog
identifier absent from the feed ("456" is omitted), so not every catalog
identifier receives exactly one update; (b) on a catalog list with a repeated
identifier, create_stocks emits two updates for it. -/
theorem c1_counterexample :
    (¬ ∀ (feed : List Watch) (ids : List String), ∀ id ∈ ids,
      ∃ p ∈ Seller.create_prices feed ids, p.offer_id = id) ∧
    (¬ ∀ (feed : List Watch) (ids : List String) (stocks : List StockUpdate) (rem : List String),
      Seller.create_stocks feed ids = some (stocks, rem) →
      ∀ id ∈ ids, (stocks.map StockUpdate.offer_id).count id = 1) := by
  constructor
  · intro hcl
    obtain ⟨p, hp, hpid⟩ :=
      hcl [⟨"123", "5", "100 руб."⟩] ["123", "456"] "456" (by decide)
    have he : Seller.create_prices [⟨"123", "5", "100 руб."⟩] ["123", "456"]
        = [⟨"UNKNOWN", "RUB", "123", "0", "100"⟩] := rfl
    rw [he, List.mem_singleton] at hp
    rw [hp] at hpid
    exact absurd hpid (by decide)
  · intro hcl
    have h := hcl [⟨"123", "5", ""⟩] ["123", "123"] [⟨"123", 5⟩, ⟨"123", 0⟩] ["123"]
      rfl "123" (by decide)
    exact absurd h (by decide)

/-- C2: the quantity normalization used by create_stocks in both modules maps
">10" to 100, "1" to 0 and any other string through int(); a non-numeric
non-sentinel quantity raises (none), which aborts the whole create_stocks
call rather than being swallowed, and a successfully parsed head record
yields its parsed value in the produced update. -/
theorem c2_quantity_normalization :
    Seller.stockCount ">10" = some 100 ∧ Seller.stockCount "1" = some 0 ∧
    Seller.stockCount "42" = some 42 ∧ Seller.stockCount "abc" = none ∧
    Market.stockCount ">10" = some 100 ∧ Market.stockCount "1" = some 0 ∧
    Market.stockCount "42" = some 42 ∧ Market.stockCount "abc" = none ∧
    (∀ (w : Watch) (ws : List Watch) (ids : List String),
      w.kod ∈ ids → Seller.stockCount w.kolichestvo = none →
      Seller.create_stocks (w :: ws) ids = none) ∧
    (∀ (w : Watch) (ids : List String) (st : Int),
      w.kod ∈ ids → Seller.stockCount w.kolichestvo = some st →
      Seller.create_stocks [w] ids =
        some (⟨w.kod, st⟩ :: (ids.erase w.kod).map (fun id => ⟨id, 0⟩), ids.erase w.kod)) ∧
    (∀ (w : Watch) (ws : List Watch) (ids : List String) (wid date : String),
      w.kod ∈ ids → Market.stockCount w.kolichestvo = none →
      Market.create_stocks (w :: ws) ids wid date = none) ∧
    (∀ (w : Watch) (ids : List String) (wid date : String) (st : Int),
      w.kod ∈ ids → Market.stockCount w.kolichestvo = some st →
      Market.create_stocks [w] ids wid date =
        some (⟨w.kod, wid, [⟨st, "FIT", date⟩]⟩ ::
          (ids.erase w.kod).map (fun id => ⟨id, wid, [⟨0, "FIT", date⟩]⟩),
          ids.erase w.kod)) := by
  refine ⟨rfl, rfl, rfl, rfl, rfl, rfl, rfl, rfl, ?_, ?_, ?_, ?_⟩
  · intro w ws ids hin hnone
    simp only [Seller.create_stocks, Seller.create_stocksGo, if_pos hin, hnone]
    rfl
  · intro w ids st hin hsome
    simp only [Seller.create_stocks, Seller.create_stocksGo, if_pos hin, hsome]
    rfl
  · intro w ws ids wid date hin hnone
    simp only [Market.create_stocks, Market.create_stocksGo, if_pos hin, hnone]
    rfl
  · intro w ids wid date st hin hsome
    simp only [Market.create_stocks, Market.create_stocksGo, if_pos hin, hsome]
    rfl

theorem c2_quantity_normalization_witness :
    Seller.create_stocks [⟨"1", "abc", "p"⟩, ⟨"2", "5", "p"⟩] ["1", "2"] = none ∧
    Seller.create_stocks [⟨"1", "7", "p"⟩] ["1", "2"] =
      some ([⟨"1", 7⟩, ⟨"2", 0⟩], ["2"]) ∧
    Market.create_stocks [⟨"1", "abc", "p"⟩] ["1"] "w" "d" = none ∧
    Market.create_stocks [⟨"1", "7", "p"⟩] ["1", "2"] "w" "d" =
      some ([⟨"1", "w", [⟨7, "FIT", "d"⟩]⟩, ⟨"2", "w", [⟨0, "FIT", "d"⟩]⟩], ["2"]) := by
  obtain ⟨-, -, -, -, -, -, -, -, hs_none, hs_some, hm_none, hm_some⟩ := c2_quantity_normalization
  exact ⟨hs_none ⟨"1", "abc", "p"⟩ [⟨"2", "5", "p"⟩] ["1", "2"] (by decide) rfl,
    hs_some ⟨"1", "7", "p"⟩ ["1", "2"] 7 (by decide) rfl,
    hm_none ⟨"1", "abc", "p"⟩ [] ["1"] "w" "d" (by decide) rfl,
    hm_some ⟨"1", "7", "p"⟩ ["1", "2"] "w" "d" 7 (by decide) rfl⟩

/-- C8: the reconciler is deterministic — running create_stocks (either
module) twice on the same feed and on equal fresh copies of the catalog list
yields identical results, in particular output sets with the same values. -/
theorem c8_reconciliation_idempotent (feed : List Watch) (ids1 ids2 : List String)
    (wid date : String) (hcopy : ids1 = ids2) :
    Seller.create_stocks feed ids1 = Seller.create_stocks feed ids2 ∧
    Market.create_stocks feed ids1 wid date = Market.create_stocks feed ids2 wid date ∧
    (∀ s1 r1 s2 r2, Seller.create_stocks feed ids1 = some (s1, r1) →
      Seller.create_stocks feed ids2 = some (s2, r2) →
      (∀ x, x ∈ s1 ↔ x ∈ s2) ∧ r1 = r2) := by
  subst hcopy
  refine ⟨rfl, rfl, ?_⟩
  intro s1 r1 s2 r2 h1 h2
  rw [h1, Option.some.injEq, Prod.mk.injEq] at h2
  rw [h2.1, h2.2]
  exact ⟨fun x => Iff.rfl, rfl⟩

theorem c8_reconciliation_idempotent_witness :
    Seller.create_stocks [⟨"123", "5", ""⟩] ["123", "456"] =
      Seller.create_stocks [⟨"123", "5", ""⟩] ["123", "456"] ∧
    Market.create_stocks [⟨"123", "5", ""⟩] ["123", "456"] "w" "d" =
      Market.create_stocks [⟨"123", "5", ""⟩] ["123", "456"] "w" "d" ∧
    (∀ s1 r1 s2 r2,
      Seller.create_stocks [⟨"123", "5", ""⟩] ["123", "456"] = some (s1, r1) →
      Seller.create_stocks [⟨"123", "5", ""⟩] ["123", "456"] = some (s2, r2) →
      (∀ x, x ∈ s1 ↔ x ∈ s2) ∧ r1 = r2) :=
  c8_reconciliation_idempotent [⟨"123", "5", ""⟩] ["123", "456"] ["123", "456"] "w" "d" rfl

theorem Seller.create_prices_of_unmatched (feed : List Watch) (rem : List String)
    (h : ∀ x ∈ rem, x ∉ feed.map Watch.kod) :
    Seller.create_prices feed rem = [] := by
  rw [Seller.create_prices]
  have hf : feed.filter (fun watch => watch.kod ∈ rem) = [] := by
    rw [List.filter_eq_nil_iff]
    intro w hw
    simp only [decide_eq_true_eq]
    intro hmem
    exact h w.kod hmem (List.mem_map_of_mem Watch.kod hw)
  rw [hf, List.map_nil]

/-- C9 (amended): for a duplicate-free catalog list, create_stocks consumes
its offer_ids argument so that the caller's list afterwards holds exactly the
identifiers no feed record matched; consequently the create_prices call that
seller.py main makes on that mutated list emits price updates only for
identifiers that received a zero-stock update and none for identifiers with a
nonzero stock update (indeed it emits none at all, since the remaining
identifiers match no feed record). -/
theorem c9_mutated_offer_ids (feed : List Watch) (ids : List String)
    (stocks : List StockUpdate) (rem : List String) (hnd : ids.Nodup)
    (h : Seller.create_stocks feed ids = some (stocks, rem)) :
    rem = ids.filter (fun id => decide (id ∉ feed.map Watch.kod)) ∧
    (∀ p ∈ Seller.create_prices feed rem, ∃ s ∈ stocks, s.offer_id = p.offer_id ∧ s.stock = 0) ∧
    (∀ s ∈ stocks, s.stock ≠ 0 → ∀ p ∈ Seller.create_prices feed rem, p.offer_id ≠ s.offer_id) := by
  obtain ⟨out, hgo, hstocks⟩ := Seller.create_stocks_elim feed ids stocks rem h
  have hrem := Seller.create_stocksGo_rem_eq feed ids [] out rem hnd hgo
  have hunmatched : ∀ x ∈ rem, x ∉ feed.map Watch.kod := by
    intro x hx
    rw [hrem] at hx
    simpa using (List.mem_filter.mp hx).2
  have hnil := Seller.create_prices_of_unmatched feed rem hunmatched
  refine ⟨hrem, ?_, ?_⟩
  · intro p hp
    rw [hnil] at hp
    exact absurd hp (List.not_mem_nil p)
  · intro s _ _ p hp
    rw [hnil] at hp
    exact absurd hp (List.not_mem_nil p)

theorem c9_mutated_offer_ids_witness :
    (["456"] : List String) =
      (["123", "456"] : List String).filter
        (fun id => decide (id ∉ [Watch.mk "123" "5" ""].map Watch.kod)) ∧
    (∀ p ∈ Seller.create_prices [⟨"123", "5", ""⟩] ["456"],
      ∃ s ∈ ([⟨"123", 5⟩, ⟨"456", 0⟩] : List StockUpdate),
        s.offer_id = p.offer_id ∧ s.stock = 0) ∧
    (∀ s ∈ ([⟨"123", 5⟩, ⟨"456", 0⟩] : List StockUpdate), s.stock ≠ 0 →
      ∀ p ∈ Seller.create_prices [⟨"123", "5", ""⟩] ["456"], p.offer_id ≠ s.offer_id) :=
  c9_mutated_offer_ids [⟨"123", "5", ""⟩] ["123", "456"] [⟨"123", 5⟩, ⟨"456", 0⟩]
    ["456"] (by decide) rfl

/-- C9 counterexample: on a catalog list with a duplicate, a matched
identifier is removed only once, so the caller's list afterwards still
contains an identifier that a feed record matched — it does not hold exactly
the unmatched identifiers. -/
theorem c9_counterexample :
    ¬ ∀ (feed : List Watch) (ids : List String) (stocks : List StockUpdate) (rem : List String),
      Seller.create_stocks feed ids = some (stocks, rem) →
      ∀ id ∈ rem, id ∉ feed.map Watch.kod := by
  intro hcl
  have h := hcl [⟨"a", "5", ""⟩] ["a", "a"] [⟨"a", 5⟩, ⟨"a", 0⟩] ["a"] rfl "a" (by decide)
  exact h (by decide)

theorem splitDot_ne_nil (l : List Char) : splitDot l ≠ [] := by
  cases l with
  | nil => simp [splitDot]
  | cons c cs =>
    simp only [splitDot]
    split
    · simp
    · split <;> simp

theorem splitDot_headD (l : List Char) :
    (splitDot l).headD [] = l.takeWhile (fun c => c != '.') := by
  induction l with
  | nil => rfl
  | cons c cs ih =>
    by_cases hc : c = '.'
    · subst hc
      simp [splitDot, List.takeWhile_cons]
    · simp only [splitDot, if_neg hc]
      rcases h : splitDot cs with _ | ⟨p, ps⟩
      · exact absurd h (splitDot_ne_nil cs)
      · rw [h] at ih
        simp only [List.headD_cons] at ih
        rw [List.takeWhile_cons, if_pos (by simpa using hc)]
        simp only [List.headD_cons, ih]

/-- C3: price_conversion takes the portion of the price string before the
first period and deletes every non-digit character; in particular the two
spec examples evaluate to "5990" and "100". -/
theorem c3_price_conversion :
    (∀ price : String, price_conversion price =
      String.mk ((price.data.takeWhile (fun c => c != '.')).filter Char.isDigit)) ∧
    price_conversion "5\x27990.00 руб." = "5990" ∧
    price_conversion "100 руб." = "100" := by
  refine ⟨?_, by decide, by decide⟩
  intro price
  rw [price_conversion, splitDot_headD]

/-- C5 (amended): every exception raised inside the try block of either
marketplace's main is caught there and turned into exactly one labelled line
on standard output — timeouts, connection failures, HTTP status errors and
any other exception alike — with nothing retried or re-raised, and a clean
body prints nothing; but code running before the try block (environment
loading in both modules, and the feed download in market.py's main) is not
covered, and its exceptions propagate out of main. -/
theorem c5_top_level_exception_handling :
    (∀ body : Except PyExc Unit,
      Seller.mainRun (Except.ok ()) body = Except.ok (handleRun body) ∧
      Market.mainRun (Except.ok ()) (Except.ok ()) body = Except.ok (handleRun body)) ∧
    handleRun (Except.ok ()) = [] ∧
    handleRun (Except.error PyExc.readTimeout) = ["Превышено время ожидания..."] ∧
    (∀ msg, handleRun (Except.error (PyExc.connectionError msg)) = [msg ++ " Ошибка соединения"]) ∧
    (∀ msg, handleRun (Except.error (PyExc.httpError msg)) = [msg ++ " ERROR_2"]) ∧
    (∀ msg, handleRun (Except.error (PyExc.otherError msg)) = [msg ++ " ERROR_2"]) ∧
    (∀ e, Seller.mainRun (Except.error e) (Except.ok ()) = Except.error e) ∧
    (∀ e, Market.mainRun (Except.ok ()) (Except.error e) (Except.ok ()) = Except.error e) :=
  ⟨fun _ => ⟨rfl, rfl⟩, rfl, rfl, fun _ => rfl, fun _ => rfl, fun _ => rfl,
    fun _ => rfl, fun _ => rfl⟩

/-- C5 counterexample: market.py calls download_stock() before entering the
try block, so a connection failure raised by the feed download during a run
of market.py's main propagates out of main instead of being caught and
printed. -/
theorem c5_counterexample :
    Market.mainRun (Except.ok ()) (Except.error (PyExc.connectionError "boom")) (Except.ok ())
      = Except.error (PyExc.connectionError "boom") := rfl

theorem Market.pagesEntries_succ (api : String → MarketPage) (k : Nat) :
    Market.pagesEntries api (k + 1) =
      Market.pagesEntries api k ++ (api (Market.tokenSeq api k)).offerMappingEntries := by
  rw [Market.pagesEntries, Market.pagesEntries, List.range_succ, List.map_append,
    List.flatten_append]
  simp

theorem Market.get_offer_idsGo_run_token (api : String → MarketPage) (k : Nat)
    (hmid : ∀ i, 1 ≤ i → i ≤ k → Market.tokenSeq api i ≠ "")
    (hend : Market.tokenSeq api (k + 1) = "") :
    ∀ (fuel j : Nat), j ≤ k → k + 1 - j ≤ fuel →
      Market.get_offer_idsGo api fuel (Market.tokenSeq api j) (Market.pagesEntries api j) =
        some (Market.pagesEntries api (k + 1)) := by
  intro fuel
  induction fuel with
  | zero => intro j hj hf; omega
  | succ f ih =>
    intro j hj hf
    rw [show Market.get_offer_idsGo api (f + 1) (Market.tokenSeq api j)
          (Market.pagesEntries api j)
        = (if (api (Market.tokenSeq api j)).paging.nextPageToken = ""
           then some (Market.pagesEntries api j ++
             (api (Market.tokenSeq api j)).offerMappingEntries)
           else Market.get_offer_idsGo api f
             (api (Market.tokenSeq api j)).paging.nextPageToken
             (Market.pagesEntries api j ++
               (api (Market.tokenSeq api j)).offerMappingEntries)) from rfl]
    rw [show (api (Market.tokenSeq api j)).paging.nextPageToken
        = Market.tokenSeq api (j + 1) from rfl]
    rw [← Market.pagesEntries_succ]
    rcases Nat.eq_or_lt_of_le hj with heq | hlt
    · subst heq
      rw [if_pos hend]
    · rw [if_neg (hmid (j + 1) (by omega) (by omega))]
      exact ih (j + 1) (by omega) (by omega)

theorem Seller.pagesItems_succ (api : String → SellerPage) (k : Nat) :
    Seller.pagesItems api (k + 1) =
      Seller.pagesItems api k ++ (api (Seller.idSeq api k)).items := by
  rw [Seller.pagesItems, Seller.pagesItems, List.range_succ, List.map_append,
    List.flatten_append]
  simp

theorem Seller.get_offer_idsGo_run_total (api : String → SellerPage) (k : Nat)
    (hmid : ∀ i, i < k →
      (api (Seller.idSeq api i)).total ≠ (Seller.pagesItems api (i + 1)).length)
    (hend : (api (Seller.idSeq api k)).total = (Seller.pagesItems api (k + 1)).length) :
    ∀ (fuel j : Nat), j ≤ k → k + 1 - j ≤ fuel →
      Seller.get_offer_idsGo api fuel (Seller.idSeq api j) (Seller.pagesItems api j) =
        some (Seller.pagesItems api (k + 1)) := by
  intro fuel
  induction fuel with
  | zero => intro j hj hf; omega
  | succ f ih =>
    intro j hj hf
    rw [show Seller.get_offer_idsGo api (f + 1) (Seller.idSeq api j) (Seller.pagesItems api j)
        = (if (api (Seller.idSeq api j)).total
              = (Seller.pagesItems api j ++ (api (Seller.idSeq api j)).items).length
           then some (Seller.pagesItems api j ++ (api (Seller.idSeq api j)).items)
           else Seller.get_offer_idsGo api f (api (Seller.idSeq api j)).last_id
             (Seller.pagesItems api j ++ (api (Seller.idSeq api j)).items)) from rfl]
    rw [show (api (Seller.idSeq api j)).last_id = Seller.idSeq api (j + 1) from rfl]
    rw [← Seller.pagesItems_succ]
    rcases Nat.eq_or_lt_of_le hj with heq | hlt
    · subst heq
      rw [if_pos hend]
    · rw [if_neg (hmid j hlt)]
      exact ih (j + 1) (by omega) (by omega)

/-- C7: for every mocked page-listing function that eventually signals
completion — an empty next-page token for Yandex Market after page k, or a
reported total equal to the accumulated item count for Ozon at page k —
get_offer_ids terminates once given fuel for the pages up to the signal and
returns exactly the identifiers accumulated from those pages. -/
theorem c7_pagination_terminates :
    (∀ (api : String → MarketPage) (k fuel : Nat),
      (∀ i, 1 ≤ i → i ≤ k → Market.tokenSeq api i ≠ "") →
      Market.tokenSeq api (k + 1) = "" →
      k + 1 ≤ fuel →
      Market.get_offer_ids api fuel =
        some ((Market.pagesEntries api (k + 1)).map (fun p => p.offer.shopSku))) ∧
    (∀ (api : String → SellerPage) (k fuel : Nat),
      (∀ i, i < k →
        (api (Seller.idSeq api i)).total ≠ (Seller.pagesItems api (i + 1)).length) →
      (api (Seller.idSeq api k)).total = (Seller.pagesItems api (k + 1)).length →
      k + 1 ≤ fuel →
      Seller.get_offer_ids api fuel =
        some ((Seller.pagesItems api (k + 1)).map (fun p => p.offer_id))) := by
  constructor
  · intro api k fuel hmid hend hf
    have h0 := Market.get_offer_idsGo_run_token api k hmid hend fuel 0 (Nat.zero_le k) (by omega)
    rw [show Market.tokenSeq api 0 = "" from rfl,
      show Market.pagesEntries api 0 = [] from rfl] at h0
    rw [Market.get_offer_ids, h0]
    rfl
  · intro api k fuel hmid hend hf
    have h0 := Seller.get_offer_idsGo_run_total api k hmid hend fuel 0 (Nat.zero_le k) (by omega)
    rw [show Seller.idSeq api 0 = "" from rfl,
      show Seller.pagesItems api 0 = [] from rfl] at h0
    rw [Seller.get_offer_ids, h0]
    rfl

/-- A mocked Yandex Market listing API with two pages: the first returns
token "t1", the second an empty token. -/
def mockMarketApi : String → MarketPage := fun t =>
  if t = "" then ⟨[⟨⟨"a"⟩⟩, ⟨⟨"b"⟩⟩], ⟨"t1"⟩⟩
  else if t = "t1" then ⟨[⟨⟨"c"⟩⟩], ⟨""⟩⟩
  else ⟨[], ⟨""⟩⟩

/-- A mocked Ozon listing API with two pages totalling three items; the
reported total (3) matches the accumulated count only after the second page. -/
def mockSellerApi : String → SellerPage := fun t =>
  if t = "" then ⟨[⟨"x"⟩, ⟨"y"⟩], 3, "L1"⟩
  else if t = "L1" then ⟨[⟨"z"⟩], 3, "L2"⟩
  else ⟨[], 0, ""⟩

theorem c7_pagination_terminates_witness :
    Market.get_offer_ids mockMarketApi 2 = some ["a", "b", "c"] ∧
    Seller.get_offer_ids mockSellerApi 2 = some ["x", "y", "z"] := by
  constructor
  · have h := c7_pagination_terminates.1 mockMarketApi 1 2
      (by
        intro i h1 h2
        have hi : i = 1 := by omega
        subst hi
        decide)
      (by decide) (by omega)
    rw [h]
    rfl
  · have h := c7_pagination_terminates.2 mockSellerApi 1 2
      (by
        intro i hi
        have hi0 : i = 0 := by omega
        subst hi0
        decide)
      (by decide) (by omega)
    rw [h]
    rfl
